import Mathlib

/-!
Verification development for the watchman core: a shallow embedding of
the `dirname`/`idirname` query term, the `QueryableView` default
implementations, the `state-enter`/`state-leave` client state machine,
and the trigger engine (`TriggerCommand`), together with theorems
checking the natural-language specification against that embedding.

Strings from the C++ sources are modelled as `List Char`; machine
unsigned integers (`size_t`) are modelled as `Nat` with explicit
`% 2^64` where the source can wrap around.
-/

namespace Watchman

/-! ## Embedding of src/watchman/query/dirname.cpp -/

/-- `is_dir_sep` from dirname.cpp: a byte is a directory separator when
it is `/` or `\`. -/
def is_dir_sep (c : Char) : Bool :=
  c = '/' || c = '\\'

/-- The relational operators accepted by an integer-compare term. -/
inductive QueryIcmpOp
  | eq
  | ne
  | gt
  | ge
  | lt
  | le
deriving DecidableEq, Repr

/-- The `w_query_int_compare` pair: an operator and an operand. -/
structure WQueryIntCompare where
  op : QueryIcmpOp
  operand : Int
deriving DecidableEq, Repr

/-- Modelled from the spec: `cmp(actualDepth, k)` with
`cmp ∈ {eq, ne, gt, ge, lt, le}` (the helper `eval_int_compare` of
query/intcompare.h is declared outside the provided sources). -/
def eval_int_compare (a : Int) (c : WQueryIntCompare) : Bool :=
  match c.op with
  | .eq => a == c.operand
  | .ne => a != c.operand
  | .gt => decide (a > c.operand)
  | .ge => decide (a ≥ c.operand)
  | .lt => decide (a < c.operand)
  | .le => decide (a ≤ c.operand)

/-- Case-sensitive prefix test used by the `dirname` variant. -/
def w_string_startswith (str pfx : List Char) : Bool :=
  List.isPrefixOf pfx str

/-- Modelled from the spec: case-insensitive prefix test used by the
`idirname` variant (ASCII lowercasing; `w_string_startswith_caseless`
is declared outside the provided sources). -/
def w_string_startswith_caseless (str pfx : List Char) : Bool :=
  List.isPrefixOf (pfx.map Char.toLower) (str.map Char.toLower)

/-- The parsed `DirNameExpr`: the directory operand, the depth
comparison, and which prefix test the parser selected (`caseless =
true` for `idirname`, `false` for `dirname`). -/
structure DirNameExpr where
  dirname : List Char
  depth : WQueryIntCompare
  caseless : Bool

/-- The default depth comparison installed by `DirNameExpr::parse` when
the term has no third element: `["depth", "ge", 0]`. -/
def default_depth : WQueryIntCompare :=
  ⟨.ge, 0⟩

/-- `DirNameExpr::evaluate` from dirname.cpp, applied to the candidate
whole-name `str`. -/
def DirNameExpr.evaluate (e : DirNameExpr) (str : List Char) : Bool :=
  if str.length ≤ e.dirname.length then
    false
  else if e.dirname.length > 0 && !is_dir_sep (str.getD e.dirname.length ' ') then
    false
  else if !(if e.caseless then w_string_startswith_caseless str e.dirname
            else w_string_startswith str e.dirname) then
    false
  else
    eval_int_compare
      (((str.drop (e.dirname.length + 1)).countP (fun c => is_dir_sep c) : Nat) : Int)
      e.depth

/-! ## Helper lemmas about characters and lists -/

theorem char_ofNat_toNat (n : Nat) (h1 : 97 ≤ n) (h2 : n ≤ 122) :
    (Char.ofNat n).toNat = n := by
  have hv : n.isValidChar := Or.inl (by omega)
  simp [Char.ofNat, hv, Char.ofNatAux, Char.toNat]
  rfl

theorem is_dir_sep_toLower (c : Char) :
    is_dir_sep (Char.toLower c) = is_dir_sep c := by
  by_cases h : c.toNat ≥ 65 ∧ c.toNat ≤ 90
  · have hl : Char.toLower c = Char.ofNat (c.toNat + 32) := by
      unfold Char.toLower
      simp [h]
    have hval : (Char.ofNat (c.toNat + 32)).toNat = c.toNat + 32 :=
      char_ofNat_toNat _ (by omega) (by omega)
    have hone : is_dir_sep (Char.toLower c) = false := by
      rw [hl]
      simp only [is_dir_sep, Bool.or_eq_false_iff, decide_eq_false_iff_not]
      refine ⟨fun hc => ?_, fun hc => ?_⟩
      · have h47 := congrArg Char.toNat hc
        rw [hval] at h47
        have : ('/').toNat = 47 := rfl
        omega
      · have h92 := congrArg Char.toNat hc
        rw [hval] at h92
        have : ('\\').toNat = 92 := rfl
        omega
    have htwo : is_dir_sep c = false := by
      simp only [is_dir_sep, Bool.or_eq_false_iff, decide_eq_false_iff_not]
      refine ⟨fun hc => ?_, fun hc => ?_⟩
      · rw [hc] at h
        exact absurd h (by decide)
      · rw [hc] at h
        exact absurd h (by decide)
    rw [hone, htwo]
  · have hl : Char.toLower c = c := by
      unfold Char.toLower
      simp [h]
    rw [hl]

theorem getD_map_of_lt (f : Char → Char) (l : List Char) (i : Nat)
    (h : i < l.length) (a b : Char) :
    (l.map f).getD i a = f (l.getD i b) := by
  have h' : i < (l.map f).length := by simpa using h
  rw [List.getD_eq_getElem _ _ h', List.getD_eq_getElem _ _ h]
  simp

/-! ## C1: dirname evaluation -/

/-- C1: for every whole-name `W` and directory operand `d`, the
`dirname` term evaluates to true iff `W` starts with `d`, `|W| > |d|`,
`d` is empty or `W[|d|]` is a directory separator, and
`cmp(actualDepth, k)` holds where `actualDepth` counts the separators
in `W[|d|+1 ..]`; with no depth triple the parser installs the default
`ge 0`, under which the term is true iff the first three conditions
hold. -/
theorem dirname_evaluate_iff (d W : List Char) (cmp : WQueryIntCompare) :
    (DirNameExpr.evaluate ⟨d, cmp, false⟩ W = true ↔
      (List.isPrefixOf d W = true ∧ d.length < W.length ∧
        (d = [] ∨ is_dir_sep (W.getD d.length ' ') = true) ∧
        eval_int_compare
          (((W.drop (d.length + 1)).countP (fun c => is_dir_sep c) : Nat) : Int)
          cmp = true))
    ∧ (DirNameExpr.evaluate ⟨d, default_depth, false⟩ W = true ↔
      (List.isPrefixOf d W = true ∧ d.length < W.length ∧
        (d = [] ∨ is_dir_sep (W.getD d.length ' ') = true))) := by
  have hdefault : ∀ n : Nat, eval_int_compare (n : Int) default_depth = true := by
    intro n
    simp [eval_int_compare, default_depth]
  have hmain : ∀ c : WQueryIntCompare,
      DirNameExpr.evaluate ⟨d, c, false⟩ W = true ↔
      (List.isPrefixOf d W = true ∧ d.length < W.length ∧
        (d = [] ∨ is_dir_sep (W.getD d.length ' ') = true) ∧
        eval_int_compare
          (((W.drop (d.length + 1)).countP (fun c => is_dir_sep c) : Nat) : Int)
          c = true) := by
    intro c
    unfold DirNameExpr.evaluate
    simp only [Bool.false_eq_true, if_false]
    by_cases h1 : W.length ≤ d.length
    · simp only [h1, if_pos]
      constructor
      · intro hfalse
        exact absurd hfalse (by simp)
      · rintro ⟨_, hlen, _⟩
        omega
    · simp only [h1, if_neg, if_false]
      by_cases h2 : d.length > 0 && !is_dir_sep (W.getD d.length ' ')
      · simp only [h2, if_pos]
        constructor
        · intro hfalse
          exact absurd hfalse (by simp)
        · rintro ⟨_, _, hsep, _⟩
          simp only [Bool.and_eq_true, Bool.not_eq_true'] at h2
          rcases hsep with hd | hs
          · subst hd
            simp at h2
          · rw [hs] at h2
            simp at h2
      · simp only [h2, if_neg, if_false]
        by_cases h3 : w_string_startswith W d = true
        · simp only [h3, Bool.not_true, if_false]
          unfold w_string_startswith at h3
          constructor
          · intro heval
            refine ⟨h3, by omega, ?_, heval⟩
            simp only [Bool.and_eq_true, Bool.not_eq_true'] at h2
            by_cases hd : d = []
            · exact Or.inl hd
            · refine Or.inr ?_
              rcases Bool.eq_false_or_eq_true (is_dir_sep (W.getD d.length ' ')) with ht | hf
              · exact ht
              · exfalso
                apply h2
                constructor
                · have : d.length ≠ 0 := by
                    intro h0
                    exact hd (List.length_eq_zero.mp h0)
                  simpa using Nat.pos_of_ne_zero this
                · simpa using hf
          · rintro ⟨_, _, _, heval⟩
            exact heval
        · have h3' : w_string_startswith W d = false := by
            simpa using h3
          simp only [h3', Bool.not_false, if_pos]
          constructor
          · intro hfalse
            exact absurd hfalse (by simp)
          · rintro ⟨hp, _, _, _⟩
            unfold w_string_startswith at h3'
            rw [hp] at h3'
            exact absurd h3' (by simp)
  refine ⟨hmain cmp, ?_⟩
  rw [hmain default_depth]
  constructor
  · rintro ⟨hp, hl, hs, _⟩
    exact ⟨hp, hl, hs⟩
  · rintro ⟨hp, hl, hs⟩
    exact ⟨hp, hl, hs, hdefault _⟩

/-! ## C7: idirname is dirname on lowercased inputs -/

/-- C7: for every whole-name `W` and operand `d`, evaluating the
`idirname` term on `(W, d)` gives the same result as evaluating the
`dirname` term on the lowercased `W` and lowercased `d`. -/
theorem idirname_evaluate_lowercase (d W : List Char) (cmp : WQueryIntCompare) :
    DirNameExpr.evaluate ⟨d, cmp, true⟩ W =
      DirNameExpr.evaluate ⟨d.map Char.toLower, cmp, false⟩ (W.map Char.toLower) := by
  unfold DirNameExpr.evaluate
  by_cases h1 : W.length ≤ d.length
  · simp [h1]
  · have hlt : d.length < W.length := by omega
    have hstart : w_string_startswith_caseless W d =
        w_string_startswith (W.map Char.toLower) (d.map Char.toLower) := rfl
    have hcount : ((W.map Char.toLower).drop (d.length + 1)).countP
          (fun c => is_dir_sep c) =
        (W.drop (d.length + 1)).countP (fun c => is_dir_sep c) := by
      rw [← List.map_drop, List.countP_map]
      apply List.countP_congr
      intro a _
      simp [is_dir_sep_toLower]
    have hopt : (Option.map Char.toLower W[d.length]?).getD ' ' =
        Char.toLower (W[d.length]?.getD ' ') := by
      rw [List.getElem?_eq_getElem hlt]
      rfl
    simp [h1, ← hstart, hcount, hopt, is_dir_sep_toLower]

/-! ## Embedding of src/watchman/QueryableView.cpp -/

/-- The error thrown when a generator is unsupported or fails. -/
structure QueryExecError where
  message : List Char
deriving DecidableEq, Repr

/-- Default `QueryableView::timeGenerator`: always fails. -/
def QueryableView.timeGenerator : Except QueryExecError Unit :=
  .error ⟨"timeGenerator not implemented".data⟩

/-- Default `QueryableView::pathGenerator`: always fails. -/
def QueryableView.pathGenerator : Except QueryExecError Unit :=
  .error ⟨"pathGenerator not implemented".data⟩

/-- Default `QueryableView::globGenerator`: always fails. -/
def QueryableView.globGenerator : Except QueryExecError Unit :=
  .error ⟨"globGenerator not implemented".data⟩

/-- Default `QueryableView::allFilesGenerator`: always fails. -/
def QueryableView.allFilesGenerator : Except QueryExecError Unit :=
  .error ⟨"allFilesGenerator not implemented".data⟩

/-- Default `QueryableView::getLastAgeOutTickValue`. -/
def QueryableView.getLastAgeOutTickValue : Nat := 0

/-- A `std::chrono::system_clock::time_point` modelled as nanoseconds
since the epoch; the default-constructed value is the epoch itself. -/
def epochTimePoint : Nat := 0

/-- Default `QueryableView::getLastAgeOutTimeStamp`: the
default-constructed (epoch) time point. -/
def QueryableView.getLastAgeOutTimeStamp : Nat := epochTimePoint

/-- Default `QueryableView::ageOut`: a no-op on the perf sample it is
handed. -/
def QueryableView.ageOut (sample : List Char) (_ttl : Nat) : List Char :=
  sample

/-- The well-known VCS lock files probed by
`QueryableView::isVCSOperationInProgress`, in source order. -/
def vcsLockFiles : List (List Char) :=
  [".hg/wlock".data, ".git/index.lock".data]

/-- `QueryableView::isVCSOperationInProgress`, parameterised over the
filesystem probe `fileExists` (the `doAnyOfTheseFilesExist` helper
checks each path under the root). -/
def QueryableView.isVCSOperationInProgress (fileExists : List Char → Bool) : Bool :=
  vcsLockFiles.any fileExists

/-! ## C8: QueryableView defaults -/

/-- C8: the four default generators fail with
`"<generatorName> not implemented"`, the age-out defaults return tick 0,
the epoch time stamp and leave the sample unchanged, and
`isVCSOperationInProgress` is true iff `.hg/wlock` or `.git/index.lock`
exists under the root. -/
theorem queryable_view_defaults :
    QueryableView.timeGenerator = .error ⟨"timeGenerator not implemented".data⟩ ∧
    QueryableView.pathGenerator = .error ⟨"pathGenerator not implemented".data⟩ ∧
    QueryableView.globGenerator = .error ⟨"globGenerator not implemented".data⟩ ∧
    QueryableView.allFilesGenerator = .error ⟨"allFilesGenerator not implemented".data⟩ ∧
    QueryableView.getLastAgeOutTickValue = 0 ∧
    QueryableView.getLastAgeOutTimeStamp = epochTimePoint ∧
    (∀ sample ttl, QueryableView.ageOut sample ttl = sample) ∧
    (∀ fileExists : List Char → Bool,
      QueryableView.isVCSOperationInProgress fileExists = true ↔
        (fileExists ".hg/wlock".data = true ∨ fileExists ".git/index.lock".data = true)) := by
  refine ⟨rfl, rfl, rfl, rfl, rfl, rfl, fun _ _ => rfl, fun fileExists => ?_⟩
  simp [QueryableView.isVCSOperationInProgress, vcsLockFiles]

/-! ## Embedding of TriggerCommand.cpp: redirection parsing -/

/-- A `stdout`/`stderr` value in a trigger definition: either a JSON
string or some other JSON value. -/
inductive RedirValue
  | str (s : List Char)
  | nonString
deriving DecidableEq, Repr

/-- The `open(2)` flag bits assembled by `parse_redirection`. -/
structure OpenFlags where
  o_creat : Bool
  o_wronly : Bool
  o_append : Bool
  o_trunc : Bool
deriving DecidableEq, Repr

/-- `*flags = 0`: no flag bits set. -/
def noOpenFlags : OpenFlags := ⟨false, false, false, false⟩

/-- `parse_redirection` from TriggerCommand.cpp. `windows` selects the
`_WIN32` branch that rejects `O_APPEND`. Returns the redirection target
name (with the `>`/`>>` marker stripped) and the flags; an absent value
leaves the name empty and the flags zero. Note that `name[1]` on a
one-character `std::string` reads the terminator `'\0'`, which is not
`'>'`, so a lone `">"` takes the truncate branch. -/
def parse_redirection (windows : Bool) (ele : Option RedirValue) :
    Except (List Char) (List Char × OpenFlags) :=
  match ele with
  | none => .ok ([], noOpenFlags)
  | some .nonString => .error "must be a string".data
  | some (.str name) =>
    match name with
    | [] => .error "must be prefixed with either > or >>".data
    | c0 :: rest =>
      if c0 = '>' then
        match rest with
        | c1 :: rest2 =>
          if c1 = '>' then
            if windows then
              .error "Windows does not support O_APPEND".data
            else
              .ok (rest2, ⟨true, true, true, false⟩)
          else
            .ok (c1 :: rest2, ⟨true, true, false, true⟩)
        | [] => .ok ([], ⟨true, true, false, true⟩)
      else
        .error "must be prefixed with either > or >>".data

/-! ## C6: redirection syntax (corrected: empty string is an error) -/

/-- C6 counterexample: the claim says an empty-string `stdout`/`stderr`
value means "inherit", but `parse_redirection` rejects the empty string
with a validation error (`name.empty() || name[0] != '>'` throws). -/
theorem parse_redirection_empty_string_errors :
    parse_redirection false (some (RedirValue.str [])) =
      .error "must be prefixed with either > or >>".data := by
  rfl

/-- C6 (amended): an absent value means inherit (empty name, zero
flags); a value `>path` (where `path` does not itself begin with `>`)
parses to create+write+truncate; `>>path` parses to create+write+append
and is rejected with a validation error on platforms without append
support; a non-string value and an empty string are validation
errors. -/
theorem parse_redirection_spec (windows : Bool) (path : List Char) :
    parse_redirection windows none = .ok ([], noOpenFlags) ∧
    (path.headD ' ' ≠ '>' →
      parse_redirection windows (some (.str ('>' :: path))) =
        .ok (path, ⟨true, true, false, true⟩)) ∧
    parse_redirection false (some (.str ('>' :: '>' :: path))) =
      .ok (path, ⟨true, true, true, false⟩) ∧
    parse_redirection true (some (.str ('>' :: '>' :: path))) =
      .error "Windows does not support O_APPEND".data ∧
    parse_redirection windows (some .nonString) = .error "must be a string".data ∧
    parse_redirection windows (some (.str [])) =
      .error "must be prefixed with either > or >>".data := by
  refine ⟨rfl, fun hpath => ?_, rfl, rfl, rfl, rfl⟩
  unfold parse_redirection
  match path with
  | [] => rfl
  | c :: rest =>
    simp only [List.headD_cons] at hpath
    simp [hpath]

/-- C6 witness: `>out` parses to create+write+truncate on the name
`out`, and `>>log` to create+write+append on the name `log`. -/
theorem parse_redirection_spec_witness :
    parse_redirection false (some (.str ('>' :: "out".data))) =
      .ok ("out".data, ⟨true, true, false, true⟩) ∧
    parse_redirection false (some (.str ('>' :: '>' :: "log".data))) =
      .ok ("log".data, ⟨true, true, true, false⟩) := by
  refine ⟨?_, ?_⟩
  · exact (parse_redirection_spec false "out".data).2.1 (by decide)
  · exact (parse_redirection_spec false "log".data).2.2.1

/-! ## Embedding of TriggerCommand.cpp: maybeSpawn -/

/-- A `ClockSpec`: either an absolute clock position (`w_cs_clock`) or a
relative "N seconds ago" spec. -/
inductive ClockSpec
  | clock (ticks : Nat)
  | relative (seconds : Int)
deriving DecidableEq, Repr

/-- The slice of `QueryResult` that the trigger engine consumes. -/
structure QueryResultM where
  resultsArray : List (List Char)
  dedupedFileNames : List (List Char)
  clockAtStartOfQuery : Nat
deriving DecidableEq, Repr

/-- The slice of the parsed `Query` that `maybeSpawn` mutates. -/
structure TrigQuery where
  sync_timeout : Nat
  since_spec : Option ClockSpec
deriving DecidableEq, Repr

/-- The visible outcome of `TriggerCommand::maybeSpawn`: its return
value, the query state it leaves behind, and the `(result, prior
since-spec)` pair handed to `spawn_command` when it spawns. -/
structure MaybeSpawnResult where
  didRun : Bool
  query : TrigQuery
  spawned : Option (QueryResultM × Option ClockSpec)
deriving DecidableEq, Repr

/-- `TriggerCommand::maybeSpawn` from TriggerCommand.cpp.
`vcsInProgress` is `root->view()->isVCSOperationInProgress()` and
`execute` stands for `w_query_execute` (whose `QueryExecError` throw is
an `Except.error`). -/
def TriggerCommand.maybeSpawn (vcsInProgress : Bool) (q : TrigQuery)
    (execute : TrigQuery → Except QueryExecError QueryResultM) : MaybeSpawnResult :=
  if vcsInProgress then
    ⟨false, q, none⟩
  else
    let q1 : TrigQuery := { q with sync_timeout := 0 }
    match execute q1 with
    | .error _ => ⟨false, q1, none⟩
    | .ok res =>
      let saved_spec := q1.since_spec
      let q2 : TrigQuery := { q1 with since_spec := some (.clock res.clockAtStartOfQuery) }
      if res.resultsArray = [] then
        ⟨false, q2, none⟩
      else
        ⟨true, q2, some (res, saved_spec)⟩

/-! ## C3: maybeSpawn behaviour -/

/-- C3: when a VCS operation is in progress, `maybeSpawn` returns false
without executing the query or touching it; otherwise it forces the
sync timeout to 0 before executing, returns false on `QueryExecError`,
replaces the since-spec with the result's `clockAtStartOfQuery` while
passing the prior spec to the spawn, returns false without spawning on
an empty result set, and spawns returning true otherwise. -/
theorem maybeSpawn_spec (vcs : Bool) (q : TrigQuery)
    (execute : TrigQuery → Except QueryExecError QueryResultM) :
    (vcs = true →
      TriggerCommand.maybeSpawn vcs q execute = ⟨false, q, none⟩) ∧
    (vcs = false →
      (∀ e, execute { q with sync_timeout := 0 } = .error e →
        TriggerCommand.maybeSpawn vcs q execute =
          ⟨false, { q with sync_timeout := 0 }, none⟩) ∧
      (∀ res, execute { q with sync_timeout := 0 } = .ok res →
        (res.resultsArray = [] →
          TriggerCommand.maybeSpawn vcs q execute =
            ⟨false, ⟨0, some (.clock res.clockAtStartOfQuery)⟩, none⟩) ∧
        (res.resultsArray ≠ [] →
          TriggerCommand.maybeSpawn vcs q execute =
            ⟨true, ⟨0, some (.clock res.clockAtStartOfQuery)⟩,
              some (res, q.since_spec)⟩))) := by
  constructor
  · intro hv
    simp [TriggerCommand.maybeSpawn, hv]
  · intro hv
    constructor
    · intro e he
      simp [TriggerCommand.maybeSpawn, hv, he]
    · intro res hres
      constructor
      · intro hempty
        simp [TriggerCommand.maybeSpawn, hv, hres, hempty]
      · intro hne
        simp [TriggerCommand.maybeSpawn, hv, hres, hne]

/-- C3 witness: a concrete non-VCS run whose query returns one file
spawns with the stashed prior spec and rewrites the since-spec. -/
theorem maybeSpawn_spec_witness :
    TriggerCommand.maybeSpawn false ⟨250, some (.clock 3)⟩
        (fun _ => .ok ⟨[['a']], [['a']], 7⟩) =
      ⟨true, ⟨0, some (.clock 7)⟩, some (⟨[['a']], [['a']], 7⟩, some (.clock 3))⟩ :=
  ((maybeSpawn_spec false ⟨250, some (.clock 3)⟩
      (fun _ => .ok ⟨[['a']], [['a']], 7⟩)).2 rfl).2 ⟨[['a']], [['a']], 7⟩ rfl |>.2
    (by decide)

/-! ## Embedding of TriggerCommand.cpp: prepare_stdin -/

/-- `trigger_input_style`: how the child's stdin is fed. -/
inductive TriggerInputStyle
  | input_dev_null
  | input_json
  | input_name_list
deriving DecidableEq, Repr

/-- The content of the stdin stream handed to the child process.
Modelled from the spec: the `input_json` case serialises the results
array with the JSON encoder (`jsonEncodeToStream`, declared outside the
provided sources), represented here by the `jsonOf` constructor holding
the array it serialises. -/
inductive StdinContent
  | devNullStream
  | text (content : List Char)
  | jsonOf (arr : List (List Char))
deriving DecidableEq, Repr

/-- The in-place truncation step of `prepare_stdin`:
`n_files = min(max_files_stdin, size)` then
`resize(min(size, n_files))`, applied only when a limit is set. -/
def prepare_stdin_truncate (max_files_stdin : Nat)
    (results : List (List Char)) : List (List Char) :=
  if max_files_stdin > 0 then
    results.take (min results.length (min max_files_stdin results.length))
  else
    results

/-- `prepare_stdin` from TriggerCommand.cpp: returns the results list
as left behind (truncated in place when a limit applies) and the stdin
stream content. The temp-file plumbing and I/O failure paths are not
modelled. -/
def prepare_stdin (style : TriggerInputStyle) (max_files_stdin : Nat)
    (results : List (List Char)) : List (List Char) × StdinContent :=
  if style = .input_dev_null then
    (results, .devNullStream)
  else
    let results1 := prepare_stdin_truncate max_files_stdin results
    match style with
    | .input_json => (results1, .jsonOf results1)
    | .input_name_list =>
      (results1, .text ((results1.map (fun n => n ++ ['\n'])).flatten))
    | .input_dev_null => (results1, .devNullStream)

theorem flatten_map_append_eq_intercalate (c : Char) :
    ∀ l : List (List Char), l ≠ [] →
      (l.map (fun n => n ++ [c])).flatten = List.intercalate [c] l ++ [c]
  | [], h => absurd rfl h
  | [x], _ => by simp [List.intercalate]
  | x :: y :: t, _ => by
    have ih := flatten_map_append_eq_intercalate c (y :: t) (by simp)
    have hcons : List.intercalate [c] (x :: y :: t) =
        x ++ [c] ++ List.intercalate [c] (y :: t) := by
      simp [List.intercalate, List.intersperse]
    rw [List.map_cons, List.flatten_cons, ih, hcons]
    simp

/-! ## C5: stdin truncation and content -/

/-- C5: for a trigger spawn whose stdin style is not `/dev/null` and
whose `max_files_stdin` limit is positive, the result list is first
truncated to `min(|results|, maxFilesStdin)` entries; `namePerLine`
then writes exactly each remaining name followed by a newline (equal to
`join('\n', names) + '\n'`), and `jsonArray` serialises exactly the
truncated array. -/
theorem prepare_stdin_spec (style : TriggerInputStyle) (max_files_stdin : Nat)
    (results : List (List Char))
    (hstyle : style ≠ .input_dev_null) (hmax : 0 < max_files_stdin)
    (hne : results ≠ []) :
    (prepare_stdin style max_files_stdin results).1 =
      results.take (min results.length max_files_stdin) ∧
    (style = .input_name_list →
      (prepare_stdin style max_files_stdin results).2 =
        .text (((results.take (min results.length max_files_stdin)).map
          (fun n => n ++ ['\n'])).flatten) ∧
      ((results.take (min results.length max_files_stdin)).map
          (fun n => n ++ ['\n'])).flatten =
        List.intercalate ['\n']
          (results.take (min results.length max_files_stdin)) ++ ['\n']) ∧
    (style = .input_json →
      (prepare_stdin style max_files_stdin results).2 =
        .jsonOf (results.take (min results.length max_files_stdin))) := by
  have hrl : 0 < results.length := List.length_pos.mpr hne
  have htr : prepare_stdin_truncate max_files_stdin results =
      results.take (min results.length max_files_stdin) := by
    rw [prepare_stdin_truncate, if_pos hmax]
    congr 1
    omega
  have htrunc_ne : results.take (min results.length max_files_stdin) ≠ [] := by
    intro h
    have hlen := congrArg List.length h
    simp only [List.length_take, List.length_nil] at hlen
    omega
  cases style with
  | input_dev_null => exact absurd rfl hstyle
  | input_json =>
    refine ⟨?_, fun h => absurd h (by decide), fun _ => ?_⟩ <;>
      simp [prepare_stdin, htr]
  | input_name_list =>
    refine ⟨?_, fun _ => ⟨?_, ?_⟩, fun h => absurd h (by decide)⟩
    · simp [prepare_stdin, htr]
    · simp [prepare_stdin, htr]
    · exact flatten_map_append_eq_intercalate '\n' _ htrunc_ne

/-- C5 witness: three results `[a, b, c]` with `maxFilesStdin = 2` and
`namePerLine` yield stdin exactly `"a\nb\n"`. -/
theorem prepare_stdin_spec_witness :
    (prepare_stdin .input_name_list 2 [['a'], ['b'], ['c']]).1 = [['a'], ['b']] ∧
    (prepare_stdin .input_name_list 2 [['a'], ['b'], ['c']]).2 =
      .text "a\nb\n".data := by
  have h := prepare_stdin_spec .input_name_list 2 [['a'], ['b'], ['c']]
    (by decide) (by decide) (by simp)
  refine ⟨?_, ?_⟩
  · rw [h.1]
    rfl
  · rw [(h.2.1 rfl).1]
    rfl

/-! ## Embedding of TriggerCommand.cpp: spawn_command -/

/-- The parsed `Query` fields the trigger constructor manipulates. -/
structure QueryModel where
  dedup_results : Bool
  fieldList : List (List Char)
deriving DecidableEq, Repr

/-- The fields of `TriggerCommand` populated by its constructor.
`query = none` models `w_query_parse` returning null, after which the
constructor returns early leaving every field at its initializer-list
default. -/
structure TriggerCommandModel where
  triggername : List Char
  command : List (List Char)
  append_files : Bool
  query : Option QueryModel
  stdin_style : TriggerInputStyle
  max_files_stdin : Nat
  stdout_name : List Char
  stdout_flags : OpenFlags
  stderr_name : List Char
  stderr_flags : OpenFlags
deriving DecidableEq, Repr

/-- `2^64`, the modulus of `size_t` arithmetic on LP64. -/
def size64 : Nat := 18446744073709551616

/-- `size_t` subtraction: `a - b` reduced modulo `2^64`, wrapping on
underflow exactly as the unsigned subtraction in `spawn_command`
does. -/
def usub64 (a b : Nat) : Nat :=
  (a + (size64 - b % size64)) % size64

/-- `sizeof(char*)` on LP64: the argv pointer-slot charge per
appended name. -/
def charPtrSize : Nat := 8

/-- The argv-appending loop of `spawn_command`: charge
`strlen + 1 + sizeof(char*)` per deduped name, stop and flag overflow
at the first name that no longer fits. Returns the overflow flag and
the names actually appended. Inside the loop the guard ensures the
subtraction cannot wrap. -/
def appendLoop (argspace : Nat) (names : List (List Char)) :
    Bool × List (List Char) :=
  match names with
  | [] => (false, [])
  | n :: rest =>
    if argspace < n.length + 1 + charPtrSize then
      (true, [])
    else
      let r := appendLoop (argspace - (n.length + 1 + charPtrSize)) rest
      (r.1, n :: r.2)

/-- The observable outcome of `spawn_command`: the
`WATCHMAN_FILES_OVERFLOW` value, the child's stdin content, and the
final argv. -/
structure SpawnRecord where
  file_overflow : Bool
  stdin : StdinContent
  args : List (List Char)
deriving DecidableEq, Repr

/-- `spawn_command` from TriggerCommand.cpp. `argMax` is
`ChildProcess::getArgMax()` and `envSize` the environment block size
reported by `env.asEnviron`; both are external inputs. Redirections,
working directory and the actual process launch are not modelled. -/
def spawn_command (argMax envSize : Nat) (cmd : TriggerCommandModel)
    (res : QueryResultM) : SpawnRecord :=
  let file_overflow0 :=
    decide (0 < cmd.max_files_stdin) &&
      decide (cmd.max_files_stdin < res.resultsArray.length)
  let argspace0 := usub64 argMax 32
  let stdinContent :=
    (prepare_stdin cmd.stdin_style cmd.max_files_stdin res.resultsArray).2
  if cmd.append_files then
    let argspace1 := cmd.command.foldl
      (fun sp ele => usub64 sp (ele.length + 1 + charPtrSize)) argspace0
    let argspace2 := usub64 argspace1 envSize
    let r := appendLoop argspace2 res.dedupedFileNames
    ⟨file_overflow0 || r.1, stdinContent, cmd.command ++ r.2⟩
  else
    ⟨file_overflow0, stdinContent, cmd.command⟩

/-- The combined argv byte cost of the base command array. -/
def baseArgvSize (command : List (List Char)) : Nat :=
  (command.map (fun e => e.length + 1 + charPtrSize)).sum

/-- The combined argv byte cost of the deduped file names. -/
def dedupSize (names : List (List Char)) : Nat :=
  (names.map (fun n => n.length + 1 + charPtrSize)).sum

/-- The overflow flag as the claim words it: true iff the limit was
exceeded, or `appendFiles` is set and the argv budget `argMax - 32`
minus the base argv and environment sizes (exact integer arithmetic) is
exhausted before every deduped name has been appended. -/
def spec_files_overflow (argMax envSize : Nat) (append_files : Bool)
    (max_files_stdin resultsLen : Nat)
    (deduped command : List (List Char)) : Bool :=
  (decide (0 < max_files_stdin) && decide (max_files_stdin < resultsLen)) ||
    (append_files && decide (deduped ≠ []) &&
      decide ((argMax : Int) - 32 - (baseArgvSize command : Int) - (envSize : Int) <
        (dedupSize deduped : Int)))

theorem usub64_eq_sub (a b : Nat) (hb : b ≤ a) (ha : a < size64) :
    usub64 a b = a - b := by
  have ha' : a < 18446744073709551616 := ha
  unfold usub64 size64
  have hb' : b % 18446744073709551616 = b := Nat.mod_eq_of_lt (by omega)
  rw [hb']
  omega

theorem foldl_usub64_eq_sub (l : List (List Char)) :
    ∀ init : Nat,
      (l.map (fun e => e.length + 1 + charPtrSize)).sum ≤ init →
      init < size64 →
      l.foldl (fun sp ele => usub64 sp (ele.length + 1 + charPtrSize)) init =
        init - (l.map (fun e => e.length + 1 + charPtrSize)).sum := by
  induction l with
  | nil =>
    intro init _ _
    simp
  | cons e rest ih =>
    intro init hfit hlt
    simp only [List.map_cons, List.sum_cons] at hfit ⊢
    rw [List.foldl_cons, usub64_eq_sub _ _ (by omega) hlt,
      ih _ (by omega) (by omega)]
    omega

theorem dedupSize_cons (n : List Char) (rest : List (List Char)) :
    dedupSize (n :: rest) = (n.length + 1 + charPtrSize) + dedupSize rest := by
  simp [dedupSize]

theorem appendLoop_cons_lt (sp : Nat) (n : List Char) (rest : List (List Char))
    (h : sp < n.length + 1 + charPtrSize) :
    appendLoop sp (n :: rest) = (true, []) := by
  simp [appendLoop, h]

theorem appendLoop_cons_ge (sp : Nat) (n : List Char) (rest : List (List Char))
    (h : ¬ sp < n.length + 1 + charPtrSize) :
    appendLoop sp (n :: rest) =
      ((appendLoop (sp - (n.length + 1 + charPtrSize)) rest).1,
        n :: (appendLoop (sp - (n.length + 1 + charPtrSize)) rest).2) := by
  simp [appendLoop, h]

theorem appendLoop_overflow_iff (names : List (List Char)) :
    ∀ sp : Nat,
      ((appendLoop sp names).1 = true ↔ sp < dedupSize names) := by
  induction names with
  | nil =>
    intro sp
    simp [appendLoop, dedupSize]
  | cons n rest ih =>
    intro sp
    by_cases h : sp < n.length + 1 + charPtrSize
    · rw [appendLoop_cons_lt sp n rest h, dedupSize_cons]
      simp only [true_iff]
      omega
    · rw [appendLoop_cons_ge sp n rest h, dedupSize_cons]
      show (appendLoop (sp - (n.length + 1 + charPtrSize)) rest).1 = true ↔ _
      rw [ih]
      omega

theorem appendLoop_appended_iff (names : List (List Char)) :
    ∀ sp : Nat,
      ((appendLoop sp names).2 = names ↔ dedupSize names ≤ sp) := by
  induction names with
  | nil =>
    intro sp
    simp [appendLoop, dedupSize]
  | cons n rest ih =>
    intro sp
    by_cases h : sp < n.length + 1 + charPtrSize
    · rw [appendLoop_cons_lt sp n rest h, dedupSize_cons]
      simp only [Prod.snd]
      constructor
      · intro hfalse
        exact absurd hfalse.symm (List.cons_ne_nil n rest)
      · intro _
        omega
    · rw [appendLoop_cons_ge sp n rest h, dedupSize_cons]
      show n :: (appendLoop (sp - (n.length + 1 + charPtrSize)) rest).2 = n :: rest ↔ _
      simp only [List.cons.injEq, true_and]
      rw [ih]
      omega

/-! ## C4: overflow flag (corrected: size_t wraparound) -/

/-- C4 counterexample: with `argMax = 100` the headroom is 68 bytes,
but a base argv costing 80 bytes plus a 30-byte environment makes the
`size_t` computation wrap around instead of exhausting the budget, so
the lone deduped name is appended and `WATCHMAN_FILES_OVERFLOW` is
`false` even though the claim's exact budget is exhausted before any
name is appended. -/
theorem spawn_overflow_counterexample :
    (spawn_command 100 30
        ⟨['t'], [List.replicate 71 'x'], true, none, .input_dev_null, 0,
          [], noOpenFlags, [], noOpenFlags⟩
        ⟨[], [['b']], 0⟩).file_overflow = false ∧
    spec_files_overflow 100 30 true 0 0 [['b']] [List.replicate 71 'x'] = true := by
  constructor
  · rfl
  · rfl

/-- C4 (amended): provided the base argv and environment fit within the
`argMax - 32` headroom (so the unsigned computation does not wrap),
`WATCHMAN_FILES_OVERFLOW` is true iff `maxFilesStdin > 0` and the
original result count exceeds it, or `appendFiles` is set and the
remaining argv budget is exhausted before every deduped name has been
appended; moreover with `appendFiles` the final argv is the base
command followed by every deduped name exactly when the budget is not
exhausted. -/
theorem spawn_overflow_iff (argMax envSize : Nat) (cmd : TriggerCommandModel)
    (res : QueryResultM)
    (hsize : argMax < size64)
    (hnw : 32 + baseArgvSize cmd.command + envSize ≤ argMax) :
    ((spawn_command argMax envSize cmd res).file_overflow = true ↔
      ((0 < cmd.max_files_stdin ∧ cmd.max_files_stdin < res.resultsArray.length) ∨
        (cmd.append_files = true ∧
          argMax - 32 - baseArgvSize cmd.command - envSize <
            dedupSize res.dedupedFileNames))) ∧
    (cmd.append_files = true →
      ((spawn_command argMax envSize cmd res).args =
          cmd.command ++ res.dedupedFileNames ↔
        dedupSize res.dedupedFileNames ≤
          argMax - 32 - baseArgvSize cmd.command - envSize)) := by
  have h32 : usub64 argMax 32 = argMax - 32 :=
    usub64_eq_sub _ _ (by omega) hsize
  have hbase : cmd.command.foldl
      (fun sp ele => usub64 sp (ele.length + 1 + charPtrSize)) (argMax - 32) =
      argMax - 32 - baseArgvSize cmd.command := by
    have := foldl_usub64_eq_sub cmd.command (argMax - 32)
      (by unfold baseArgvSize at hnw; omega) (by omega)
    unfold baseArgvSize
    exact this
  have henv : usub64 (argMax - 32 - baseArgvSize cmd.command) envSize =
      argMax - 32 - baseArgvSize cmd.command - envSize :=
    usub64_eq_sub _ _ (by omega) (by omega)
  cases happ : cmd.append_files with
  | false =>
    constructor
    · simp only [spawn_command, happ, if_false, Bool.false_eq_true]
      constructor
      · intro h
        simp only [Bool.and_eq_true, decide_eq_true_eq] at h
        exact Or.inl h
      · rintro (⟨h1, h2⟩ | ⟨hfalse, _⟩)
        · simp only [Bool.and_eq_true, decide_eq_true_eq]
          exact ⟨h1, h2⟩
        · exact absurd hfalse (by simp)
    · intro hfalse
      exact absurd hfalse (by simp [happ])
  | true =>
    have hloopO := appendLoop_overflow_iff res.dedupedFileNames
      (argMax - 32 - baseArgvSize cmd.command - envSize)
    have hloopA := appendLoop_appended_iff res.dedupedFileNames
      (argMax - 32 - baseArgvSize cmd.command - envSize)
    constructor
    · simp only [spawn_command, happ, if_true, h32, hbase, henv,
        Bool.or_eq_true, Bool.and_eq_true, decide_eq_true_eq]
      rw [hloopO]
      constructor
      · rintro (h | h)
        · exact Or.inl h
        · exact Or.inr ⟨trivial, h⟩
      · rintro (h | ⟨_, h⟩)
        · exact Or.inl h
        · exact Or.inr h
    · intro _
      simp only [spawn_command, happ, if_true, h32, hbase, henv]
      rw [← hloopA]
      constructor
      · intro h
        exact List.append_cancel_left h
      · intro h
        rw [h]

/-- C4 witness for the amended claim: a concrete no-wrap spawn where
the limit is exceeded reports overflow, and the budget suffices so the
argv carries every deduped name. -/
theorem spawn_overflow_iff_witness :
    (spawn_command 4096 10
        ⟨['t'], [['r', 'u', 'n']], true, none, .input_dev_null, 2,
          [], noOpenFlags, [], noOpenFlags⟩
        ⟨[['a'], ['b'], ['c']], [['a'], ['b']], 0⟩).file_overflow = true ∧
    (spawn_command 4096 10
        ⟨['t'], [['r', 'u', 'n']], true, none, .input_dev_null, 2,
          [], noOpenFlags, [], noOpenFlags⟩
        ⟨[['a'], ['b'], ['c']], [['a'], ['b']], 0⟩).args =
      [['r', 'u', 'n'], ['a'], ['b']] := by
  have h := spawn_overflow_iff 4096 10
    ⟨['t'], [['r', 'u', 'n']], true, none, .input_dev_null, 2,
      [], noOpenFlags, [], noOpenFlags⟩
    ⟨[['a'], ['b'], ['c']], [['a'], ['b']], 0⟩
    (by decide) (by decide)
  refine ⟨h.1.mpr (Or.inl (by decide)), ?_⟩
  have := (h.2 rfl).mpr (by decide)
  simpa using this

/-! ## Embedding of TriggerCommand.cpp: the constructor -/

/-- The `stdin` key of a trigger definition: absent, a JSON array of
field names, a JSON string, or some other JSON value. -/
inductive StdinDef
  | absent
  | arr (fields : List (List Char))
  | str (s : List Char)
  | other
deriving DecidableEq, Repr

/-- The keys of a trigger definition that the constructor consumes.
`name = none` models an absent key and `name = some none` a non-string
value; `command = none` models an absent or non-array value. -/
structure TriggerDef where
  name : Option (Option (List Char))
  command : Option (List (List Char))
  append_files : Bool
  stdin : StdinDef
  max_files_stdin : Int
  stdout : Option RedirValue
  stderr : Option RedirValue
deriving DecidableEq, Repr

/-- The `stdin` key handling of the constructor, split out: picks the
input style and updates the query's field list. -/
def parse_trigger_stdin (stdin : StdinDef) (q : QueryModel) :
    Except (List Char) (TriggerInputStyle × QueryModel) :=
  match stdin with
  | .absent => .ok (.input_dev_null, q)
  | .arr fields => .ok (.input_json, { q with fieldList := fields })
  | .str s =>
    if s = "/dev/null".data then
      .ok (.input_dev_null, q)
    else if s = "NAME_PER_LINE".data then
      .ok (.input_name_list, { q with fieldList := ["name".data] })
    else
      .error "invalid stdin value".data
  | .other => .error "invalid value for stdin".data

/-- `TriggerCommand::TriggerCommand` from TriggerCommand.cpp.
`parsedQuery` stands for the result of `w_query_parse` on the embedded
query definition (`none` models a null query, after which the
constructor returns early). Errors are `CommandValidationError`
messages. -/
def TriggerCommand.construct (windows : Bool) (parsedQuery : Option QueryModel)
    (trig : TriggerDef) : Except (List Char) TriggerCommandModel :=
  match parsedQuery with
  | none =>
    .ok ⟨[], [], false, none, .input_dev_null, 0, [], noOpenFlags, [], noOpenFlags⟩
  | some q0 =>
    match trig.name with
    | none => .error "invalid or missing name".data
    | some none => .error "invalid or missing name".data
    | some (some nm) =>
      match trig.command with
      | none => .error "invalid command array".data
      | some cmdArr =>
        if cmdArr.length = 0 then
          .error "invalid command array".data
        else
          match parse_trigger_stdin trig.stdin
              (if trig.append_files then { q0 with dedup_results := true } else q0) with
          | .error e => .error e
          | .ok (style, q2) =>
            if trig.max_files_stdin < 0 then
              .error "max_files_stdin must be >= 0".data
            else
              match parse_redirection windows trig.stdout with
              | .error e => .error e
              | .ok (outName, outFlags) =>
                match parse_redirection windows trig.stderr with
                | .error e => .error e
                | .ok (errName, errFlags) =>
                  .ok ⟨nm, cmdArr, trig.append_files, some q2, style,
                    trig.max_files_stdin.toNat, outName, outFlags,
                    errName, errFlags⟩

theorem parse_trigger_stdin_dedup (stdin : StdinDef) (q : QueryModel)
    (style : TriggerInputStyle) (q2 : QueryModel)
    (h : parse_trigger_stdin stdin q = .ok (style, q2)) :
    q2.dedup_results = q.dedup_results := by
  cases stdin with
  | absent =>
    simp only [parse_trigger_stdin, Except.ok.injEq, Prod.mk.injEq] at h
    rw [← h.2]
  | arr fields =>
    simp only [parse_trigger_stdin, Except.ok.injEq, Prod.mk.injEq] at h
    rw [← h.2]
  | str s =>
    simp only [parse_trigger_stdin] at h
    by_cases hdev : s = "/dev/null".data
    · rw [if_pos hdev] at h
      simp only [Except.ok.injEq, Prod.mk.injEq] at h
      rw [← h.2]
    · rw [if_neg hdev] at h
      by_cases hnpl : s = "NAME_PER_LINE".data
      · rw [if_pos hnpl] at h
        simp only [Except.ok.injEq, Prod.mk.injEq] at h
        rw [← h.2]
      · rw [if_neg hnpl] at h
        exact Except.noConfusion h
  | other => exact Except.noConfusion h

theorem appendLoop_take (names : List (List Char)) :
    ∀ sp : Nat, ∃ k, (appendLoop sp names).2 = names.take k := by
  induction names with
  | nil =>
    intro sp
    exact ⟨0, rfl⟩
  | cons n rest ih =>
    intro sp
    by_cases h : sp < n.length + 1 + charPtrSize
    · refine ⟨0, ?_⟩
      rw [appendLoop_cons_lt sp n rest h]
      rfl
    · obtain ⟨k, hk⟩ := ih (sp - (n.length + 1 + charPtrSize))
      refine ⟨k + 1, ?_⟩
      rw [appendLoop_cons_ge sp n rest h]
      simp [hk]

/-! ## C10: append_files forces dedup_results -/

/-- C10: whenever constructing a `TriggerCommand` succeeds with
`append_files` set, the parsed query's `dedup_results` flag has been
forced to true, and the names a spawn appends to the child's argv are
always an initial segment of the deduplicated name set. -/
theorem trigger_construct_dedup (windows : Bool) (pq : Option QueryModel)
    (trig : TriggerDef) (tc : TriggerCommandModel)
    (hok : TriggerCommand.construct windows pq trig = .ok tc)
    (happ : tc.append_files = true) :
    (∀ q, tc.query = some q → q.dedup_results = true) ∧
    (∀ argMax envSize res, ∃ k,
      (spawn_command argMax envSize tc res).args =
        tc.command ++ res.dedupedFileNames.take k) := by
  constructor
  · intro q hq
    unfold TriggerCommand.construct at hok
    repeat' split at hok
    any_goals exact Except.noConfusion hok
    · injection hok with h
      rw [← h] at happ
      simp at happ
    · rename_i x2 style q2 heq2 hmfs x1 outName outFlags heq1 x0 errName errFlags heq0
      injection hok with h
      rw [← h] at happ hq
      simp only at happ hq
      have hded := parse_trigger_stdin_dedup _ _ _ _ heq2
      rw [if_pos happ] at hded
      simp only [Option.some.injEq] at hq
      rw [← hq]
      simpa using hded
  · intro argMax envSize res
    unfold spawn_command
    rw [happ]
    simp only [if_true]
    obtain ⟨k, hk⟩ := appendLoop_take res.dedupedFileNames
      (usub64 (tc.command.foldl
        (fun sp ele => usub64 sp (ele.length + 1 + charPtrSize))
        (usub64 argMax 32)) envSize)
    exact ⟨k, by rw [hk]⟩

/-- C10 witness: a concrete trigger definition with `append_files`
true constructs successfully with `dedup_results` forced on. -/
theorem trigger_construct_dedup_witness :
    (⟨true, []⟩ : QueryModel).dedup_results = true :=
  (trigger_construct_dedup false (some ⟨false, []⟩)
      ⟨some (some ['t']), some [['c']], true, .absent, 0, none, none⟩
      ⟨['t'], [['c']], true, some ⟨true, []⟩, .input_dev_null, 0, [],
        noOpenFlags, [], noOpenFlags⟩
      rfl rfl).1 ⟨true, []⟩ rfl

/-! ## Embedding of src/watchman/cmds/state.cpp -/

/-- `ClientStateDisposition`: the lifecycle stage of an assertion. -/
inductive ClientStateDisposition
  | pendingEnter
  | asserted
  | pendingLeave
  | done
deriving DecidableEq, Repr

/-- A `ClientStateAssertion` as it sits in the root's FIFO: an identity,
its disposition, and the deferred enter payload if any (tagged by the
id of the assertion it announces). -/
structure ClientStateAssertion where
  aid : Nat
  disposition : ClientStateDisposition
  enterPayload : Option Nat
deriving DecidableEq, Repr

/-- The error responses `cmd_state_leave` can send synchronously. -/
inductive StateCmdError
  | notAsserted (name : List Char)
  | implicitlyVacated (name : List Char)
  | notAssertedBySession (name : List Char)
deriving DecidableEq, Repr

/-- The successful synchronous outcome of `cmd_state_leave`: the
disposition written to the assertion, the client's state map after the
erase, and the `{root, state-leave: name}` ack. -/
structure StateLeaveOk where
  assertionDisposition : ClientStateDisposition
  clientStates : List (List Char × Option ClientStateAssertion)
  ackRoot : List Char
  ackName : List Char
deriving DecidableEq, Repr

/-- `cmd_state_leave` from state.cpp up to its synchronous ack. The
client's `states` map is an association list from state name to the
locked weak reference: `none` models a dead weak pointer. The
ownership sanity check (`mapGetDefault(...).lock() != assertion`)
re-reads the same map entry and cannot fire in this embedding, so the
`notAssertedBySession` error is unreachable here. The cookie sync and
the asynchronous leave broadcast happen after the ack. -/
def cmd_state_leave (rootPath : List Char)
    (clientStates : List (List Char × Option ClientStateAssertion))
    (name : List Char) : Except StateCmdError StateLeaveOk :=
  match clientStates.lookup name with
  | none => .error (.notAsserted name)
  | some none => .error (.implicitlyVacated name)
  | some (some a) =>
    if a.disposition = .done then
      .error (.implicitlyVacated name)
    else
      .ok ⟨.pendingLeave, clientStates.filter (fun e => !(e.1 = name)),
        rootPath, name⟩

/-! ## C9: state-leave error handling -/

/-- C9: `state-leave` fails with "state X is not asserted" when the
session holds no assertion under the name, with "state X was implicitly
vacated" when the weak reference is dead, fails likewise when the
disposition is already `Done`, and otherwise sets the disposition to
`PendingLeave`, erases the client's entry and sends the synchronous
ack. -/
theorem state_leave_spec (rootPath name : List Char)
    (clientStates : List (List Char × Option ClientStateAssertion)) :
    (clientStates.lookup name = none →
      cmd_state_leave rootPath clientStates name =
        .error (.notAsserted name)) ∧
    (clientStates.lookup name = some none →
      cmd_state_leave rootPath clientStates name =
        .error (.implicitlyVacated name)) ∧
    (∀ a, clientStates.lookup name = some (some a) →
      (a.disposition = .done →
        cmd_state_leave rootPath clientStates name =
          .error (.implicitlyVacated name)) ∧
      (a.disposition ≠ .done →
        cmd_state_leave rootPath clientStates name =
          .ok ⟨.pendingLeave, clientStates.filter (fun e => !(e.1 = name)),
            rootPath, name⟩)) := by
  refine ⟨fun h => ?_, fun h => ?_, fun a h => ⟨fun hd => ?_, fun hd => ?_⟩⟩
  · unfold cmd_state_leave
    rw [h]
  · unfold cmd_state_leave
    rw [h]
  · unfold cmd_state_leave
    rw [h]
    simp only [if_pos hd]
  · unfold cmd_state_leave
    rw [h]
    simp only [if_neg hd]

/-- C9 witness: with one live `Asserted` assertion under name `s`, the
handler acks, erases the entry and marks the assertion
`PendingLeave`; a dead weak reference under name `t` fails with the
implicitly-vacated error. -/
theorem state_leave_spec_witness :
    cmd_state_leave ['r'] [(['s'], some ⟨1, .asserted, none⟩), (['t'], none)] ['s'] =
      .ok ⟨.pendingLeave, [(['t'], none)], ['r'], ['s']⟩ ∧
    cmd_state_leave ['r'] [(['s'], some ⟨1, .asserted, none⟩), (['t'], none)] ['t'] =
      .error (.implicitlyVacated ['t']) := by
  constructor
  · have h := (state_leave_spec ['r'] ['s']
      [(['s'], some ⟨1, .asserted, none⟩), (['t'], none)]).2.2
      ⟨1, .asserted, none⟩ (by decide)
    rw [(h.2 (by decide))]
    rfl
  · exact (state_leave_spec ['r'] ['t']
      [(['s'], some ⟨1, .asserted, none⟩), (['t'], none)]).2.1 (by decide)

/-! ## The state-enter broadcast machine (cmd_state_enter continuation
plus the spec's removeAssertion) -/

/-- `isFront` on the root's per-name FIFO: whether assertion `i` is at
the head of the queue. -/
def isFront (s : List ClientStateAssertion) (i : Nat) : Bool :=
  match s with
  | [] => false
  | a :: _ => a.aid == i

/-- `assertion->disposition = Asserted`, applied inside the lock. -/
def setAsserted (s : List ClientStateAssertion) (i : Nat) :
    List ClientStateAssertion :=
  s.map (fun a => if a.aid = i then { a with disposition := .asserted } else a)

/-- `assertion->enterPayload = payload`: defer the broadcast. -/
def storePayload (s : List ClientStateAssertion) (i : Nat) :
    List ClientStateAssertion :=
  s.map (fun a => if a.aid = i then { a with enterPayload := some i } else a)

/-- The success path of the cookie-sync continuation in
`cmd_state_enter`: set the disposition to `Asserted` under the lock,
then broadcast the enter payload iff the assertion is at the front of
the FIFO, storing it in `enterPayload` otherwise. Returns the new FIFO
and the payloads enqueued on the unilateral publisher. -/
def onEnterSyncOk (s : List ClientStateAssertion) (i : Nat) :
    List ClientStateAssertion × List Nat :=
  let s1 := setAsserted s i
  if isFront s1 i then
    (s1, [i])
  else
    (storePayload s1 i, [])

/-- Modelled from the spec: `Root::removeAssertion` (declared outside
the provided sources) erases the assertion from the FIFO and, if the
new head is `Asserted` and carries a deferred `enterPayload`,
broadcasts that payload once and clears it. -/
def removeAssertion (s : List ClientStateAssertion) (i : Nat) :
    List ClientStateAssertion × List Nat :=
  match s.filter (fun a => !(a.aid = i)) with
  | [] => ([], [])
  | h :: t =>
    match h.enterPayload with
    | some p =>
      if h.disposition = .asserted then
        ({ h with enterPayload := none } :: t, [p])
      else
        (h :: t, [])
    | none => (h :: t, [])

/-- The failure path of the cookie-sync continuation in
`cmd_state_enter`: log and remove the assertion; no broadcast of its
own payload. -/
def onEnterSyncFail (s : List ClientStateAssertion) (i : Nat) :
    List ClientStateAssertion × List Nat :=
  removeAssertion s i

/-- The events that can touch a per-name FIFO: an enter-sync completing
(successfully or not) for assertion `i`, or assertion `i` being removed
by a completed leave or a client disconnect. -/
inductive StateEvent
  | syncOk (i : Nat)
  | syncFail (i : Nat)
  | removed (i : Nat)
deriving DecidableEq, Repr

def stateStep (s : List ClientStateAssertion) :
    StateEvent → List ClientStateAssertion × List Nat
  | .syncOk i => onEnterSyncOk s i
  | .syncFail i => onEnterSyncFail s i
  | .removed i => removeAssertion s i

def stateRun (s : List ClientStateAssertion) :
    List StateEvent → List ClientStateAssertion × List Nat
  | [] => (s, [])
  | e :: rest =>
    ((stateRun (stateStep s e).1 rest).1,
      (stateStep s e).2 ++ (stateRun (stateStep s e).1 rest).2)

/-- How many assertions in the FIFO hold the deferred payload of
assertion `i`. -/
def storedCount (i : Nat) (s : List ClientStateAssertion) : Nat :=
  s.countP (fun a => decide (a.enterPayload = some i))

/-- How many assertions in the FIFO carry id `i`. -/
def aidCount (i : Nat) (s : List ClientStateAssertion) : Nat :=
  s.countP (fun a => decide (a.aid = i))

/-- How many enter-sync successes for `i` a trace contains. -/
def okCount (i : Nat) (evs : List StateEvent) : Nat :=
  evs.countP (fun e => decide (e = .syncOk i))

/-- The head of the FIFO is assertion `i` and it is `Asserted`. -/
def headFrontAsserted (s : List ClientStateAssertion) (i : Nat) : Prop :=
  match s with
  | [] => False
  | a :: _ => a.aid = i ∧ a.disposition = .asserted

/-! ## Accounting lemmas for the broadcast machine -/

theorem storedCount_cons (i : Nat) (a : ClientStateAssertion)
    (l : List ClientStateAssertion) :
    storedCount i (a :: l) =
      storedCount i l + if a.enterPayload = some i then 1 else 0 := by
  unfold storedCount
  rw [List.countP_cons]
  split <;> simp_all

theorem storedCount_setAsserted (i j : Nat) (s : List ClientStateAssertion) :
    storedCount i (setAsserted s j) = storedCount i s := by
  unfold storedCount setAsserted
  rw [List.countP_map]
  apply List.countP_congr
  intro a _
  by_cases h : a.aid = j <;> simp [h, Function.comp]

theorem aidCount_setAsserted (i j : Nat) (s : List ClientStateAssertion) :
    aidCount i (setAsserted s j) = aidCount i s := by
  unfold aidCount setAsserted
  rw [List.countP_map]
  apply List.countP_congr
  intro a _
  by_cases h : a.aid = j <;> simp [h, Function.comp]

theorem aidCount_storePayload (i j : Nat) (s : List ClientStateAssertion) :
    aidCount i (storePayload s j) = aidCount i s := by
  unfold aidCount storePayload
  rw [List.countP_map]
  apply List.countP_congr
  intro a _
  by_cases h : a.aid = j <;> simp [h, Function.comp]

theorem aidCount_cons (i : Nat) (a : ClientStateAssertion)
    (l : List ClientStateAssertion) :
    aidCount i (a :: l) = aidCount i l + if a.aid = i then 1 else 0 := by
  unfold aidCount
  rw [List.countP_cons]
  split <;> simp_all

theorem storedCount_storePayload_self (i : Nat) (s : List ClientStateAssertion) :
    storedCount i (storePayload s i) ≤ aidCount i s + storedCount i s := by
  induction s with
  | nil => simp [storedCount, storePayload, aidCount]
  | cons a rest ih =>
    have hcons : storePayload (a :: rest) i =
        (if a.aid = i then { a with enterPayload := some i } else a) ::
          storePayload rest i := rfl
    rw [hcons, storedCount_cons, storedCount_cons, aidCount_cons]
    by_cases h : a.aid = i
    · simp only [if_pos h]
      simp
      omega
    · simp only [if_neg h]
      by_cases hp : a.enterPayload = some i <;> simp [hp] <;> omega

theorem storedCount_storePayload_ne (i j : Nat) (hne : j ≠ i)
    (s : List ClientStateAssertion) :
    storedCount i (storePayload s j) ≤ storedCount i s := by
  unfold storedCount storePayload
  rw [List.countP_map]
  apply List.countP_mono_left
  intro a _
  by_cases h : a.aid = j <;> simp [h, Function.comp, hne]

theorem storedCount_filter_le (i : Nat) (f : ClientStateAssertion → Bool)
    (s : List ClientStateAssertion) :
    storedCount i (s.filter f) ≤ storedCount i s :=
  (List.filter_sublist s).countP_le _

theorem aidCount_filter_le (i : Nat) (f : ClientStateAssertion → Bool)
    (s : List ClientStateAssertion) :
    aidCount i (s.filter f) ≤ aidCount i s :=
  (List.filter_sublist s).countP_le _

theorem removeAssertion_count (s : List ClientStateAssertion) (j i : Nat) :
    (removeAssertion s j).2.count i + storedCount i (removeAssertion s j).1 ≤
      storedCount i s := by
  have hsub := storedCount_filter_le i (fun a => !(a.aid = j)) s
  unfold removeAssertion
  cases hf : s.filter (fun a => !(a.aid = j)) with
  | nil => simp [storedCount]
  | cons h t =>
    rw [hf] at hsub
    rw [storedCount_cons] at hsub
    cases hp : h.enterPayload with
    | none =>
      simp only [hp] at hsub ⊢
      simp only [List.count_nil, storedCount_cons, hp]
      simp at hsub ⊢
      omega
    | some p =>
      simp only [hp] at hsub ⊢
      by_cases hd : h.disposition = ClientStateDisposition.asserted
      · simp only [if_pos hd]
        simp only [List.count_cons, List.count_nil, storedCount_cons]
        by_cases hpi : p = i
        · subst hpi
          simp only [Option.some.injEq] at hsub
          simp at hsub ⊢
          omega
        · simp only [Option.some.injEq] at hsub
          simp [hpi] at hsub ⊢
          omega
      · simp only [if_neg hd]
        simp only [List.count_nil, storedCount_cons, hp]
        simp only [Option.some.injEq] at hsub ⊢
        by_cases hpi : p = i
        · subst hpi
          simp at hsub ⊢
          omega
        · simp [hpi] at hsub ⊢
          omega

theorem aidCount_removeAssertion_le (s : List ClientStateAssertion) (j i : Nat) :
    aidCount i (removeAssertion s j).1 ≤ aidCount i s := by
  have hsub := aidCount_filter_le i (fun a => !(a.aid = j)) s
  unfold removeAssertion
  cases hf : s.filter (fun a => !(a.aid = j)) with
  | nil => simp [aidCount]
  | cons h t =>
    rw [hf] at hsub
    rw [aidCount_cons] at hsub
    cases hp : h.enterPayload with
    | none =>
      simp only [hp]
      rw [aidCount_cons]
      omega
    | some p =>
      simp only [hp]
      by_cases hd : h.disposition = ClientStateDisposition.asserted
      · simp only [if_pos hd]
        rw [aidCount_cons]
        simp only []
        omega
      · simp only [if_neg hd]
        rw [aidCount_cons]
        omega

theorem isFront_setAsserted (s : List ClientStateAssertion) (i j : Nat) :
    isFront (setAsserted s j) i = isFront s i := by
  cases s with
  | nil => rfl
  | cons a rest =>
    simp only [setAsserted, List.map_cons, isFront]
    by_cases h : a.aid = j <;> simp [h]

theorem onEnterSyncOk_count (s : List ClientStateAssertion) (j i : Nat)
    (haid : aidCount i s ≤ 1) :
    (onEnterSyncOk s j).2.count i + storedCount i (onEnterSyncOk s j).1 ≤
      storedCount i s + (if j = i then 1 else 0) := by
  unfold onEnterSyncOk
  by_cases hf : isFront (setAsserted s j) j = true
  · rw [if_pos hf]
    simp only [storedCount_setAsserted]
    by_cases hji : j = i
    · subst hji
      simp [List.count_cons]
      omega
    · simp [List.count_cons, List.count_nil, hji]
  · rw [if_neg hf]
    simp only [List.count_nil]
    by_cases hji : j = i
    · subst hji
      have h1 := storedCount_storePayload_self j (setAsserted s j)
      rw [storedCount_setAsserted, aidCount_setAsserted] at h1
      simp
      omega
    · have h1 := storedCount_storePayload_ne i j hji (setAsserted s j)
      rw [storedCount_setAsserted] at h1
      simp only [if_neg hji]
      omega

theorem stateStep_count (s : List ClientStateAssertion) (e : StateEvent) (i : Nat)
    (haid : aidCount i s ≤ 1) :
    (stateStep s e).2.count i + storedCount i (stateStep s e).1 ≤
      storedCount i s + (if e = StateEvent.syncOk i then 1 else 0) := by
  cases e with
  | syncOk j =>
    have h := onEnterSyncOk_count s j i haid
    simp only [stateStep]
    simpa [StateEvent.syncOk.injEq] using h
  | syncFail j =>
    have h := removeAssertion_count s j i
    simp only [stateStep, onEnterSyncFail]
    have : ((StateEvent.syncFail j = StateEvent.syncOk i) = False) := by simp
    simp only [this, if_false]
    omega
  | removed j =>
    have h := removeAssertion_count s j i
    simp only [stateStep]
    have : ((StateEvent.removed j = StateEvent.syncOk i) = False) := by simp
    simp only [this, if_false]
    omega

theorem aidCount_stateStep_le (s : List ClientStateAssertion) (e : StateEvent)
    (i : Nat) :
    aidCount i (stateStep s e).1 ≤ aidCount i s := by
  cases e with
  | syncOk j =>
    simp only [stateStep, onEnterSyncOk]
    by_cases hf : isFront (setAsserted s j) j = true
    · rw [if_pos hf]
      exact le_of_eq (aidCount_setAsserted i j s)
    · rw [if_neg hf]
      rw [aidCount_storePayload, aidCount_setAsserted]
  | syncFail j => exact aidCount_removeAssertion_le s j i
  | removed j => exact aidCount_removeAssertion_le s j i

theorem stateRun_count (i : Nat) (evs : List StateEvent) :
    ∀ s : List ClientStateAssertion, aidCount i s ≤ 1 →
      (stateRun s evs).2.count i + storedCount i (stateRun s evs).1 ≤
        storedCount i s + okCount i evs := by
  induction evs with
  | nil =>
    intro s _
    simp [stateRun, okCount]
  | cons e rest ih =>
    intro s haid
    have hstep := stateStep_count s e i haid
    have haid2 := aidCount_stateStep_le s e i
    have hrest := ih (stateStep s e).1 (le_trans haid2 haid)
    have hok : okCount i (e :: rest) =
        okCount i rest + if e = StateEvent.syncOk i then 1 else 0 := by
      unfold okCount
      rw [List.countP_cons]
      split <;> simp_all
    simp only [stateRun, List.count_append]
    rw [hok]
    omega

theorem removeAssertion_broadcast_front (s : List ClientStateAssertion)
    (j i : Nat)
    (hloc : ∀ a ∈ s, a.enterPayload = some i → a.aid = i)
    (hmem : i ∈ (removeAssertion s j).2) :
    headFrontAsserted (removeAssertion s j).1 i := by
  unfold removeAssertion at hmem ⊢
  cases hf : s.filter (fun a => !(a.aid = j)) with
  | nil =>
    rw [hf] at hmem
    simp at hmem
  | cons h t =>
    rw [hf] at hmem
    cases hp : h.enterPayload with
    | none =>
      simp only [hp] at hmem
      simp at hmem
    | some p =>
      simp only [hp] at hmem ⊢
      by_cases hd : h.disposition = ClientStateDisposition.asserted
      · rw [if_pos hd] at hmem ⊢
        simp only [List.mem_singleton] at hmem
        have hmemf : h ∈ s.filter (fun a => !(a.aid = j)) := by
          rw [hf]
          exact List.mem_cons_self h t
        have hh : h ∈ s := List.mem_of_mem_filter hmemf
        have haid : h.aid = i := hloc h hh (by rw [hp, hmem])
        simp [headFrontAsserted, haid, hd]
      · rw [if_neg hd] at hmem
        simp at hmem

theorem stateStep_broadcast_front (s : List ClientStateAssertion)
    (e : StateEvent) (i : Nat)
    (hloc : ∀ a ∈ s, a.enterPayload = some i → a.aid = i)
    (hmem : i ∈ (stateStep s e).2) :
    headFrontAsserted (stateStep s e).1 i := by
  cases e with
  | syncOk j =>
    simp only [stateStep, onEnterSyncOk] at hmem ⊢
    by_cases hf : isFront (setAsserted s j) j = true
    · rw [if_pos hf] at hmem ⊢
      simp only [List.mem_singleton] at hmem
      subst hmem
      cases s with
      | nil => simp [isFront, setAsserted] at hf
      | cons a rest =>
        simp only [setAsserted, List.map_cons] at hf ⊢
        by_cases ha : a.aid = i
        · simp only [if_pos ha, headFrontAsserted]
          exact ⟨ha, trivial⟩
        · simp only [if_neg ha, isFront] at hf
          simp at hf
          exact absurd hf ha
    · rw [if_neg hf] at hmem
      simp at hmem
  | syncFail j => exact removeAssertion_broadcast_front s j i hloc hmem
  | removed j => exact removeAssertion_broadcast_front s j i hloc hmem

theorem removeAssertion_aid_ne (s : List ClientStateAssertion) (i : Nat)
    (a : ClientStateAssertion) (ha : a ∈ (removeAssertion s i).1) :
    a.aid ≠ i := by
  unfold removeAssertion at ha
  cases hf : s.filter (fun x => !(x.aid = i)) with
  | nil =>
    rw [hf] at ha
    simp at ha
  | cons h t =>
    rw [hf] at ha
    have hmemf : ∀ x ∈ h :: t, x.aid ≠ i := by
      intro x hx
      have hxf : x ∈ s.filter (fun x => !(x.aid = i)) := by
        rw [hf]
        exact hx
      have := List.of_mem_filter hxf
      simpa using this
    cases hp : h.enterPayload with
    | none =>
      simp only [hp] at ha
      exact hmemf a ha
    | some p =>
      simp only [hp] at ha
      by_cases hd : h.disposition = ClientStateDisposition.asserted
      · rw [if_pos hd] at ha
        rcases List.mem_cons.mp ha with rfl | hat
        · simpa using hmemf h (List.mem_cons_self h t)
        · exact hmemf a (List.mem_cons_of_mem h hat)
      · rw [if_neg hd] at ha
        exact hmemf a ha

theorem removeAssertion_count_zero (s : List ClientStateAssertion) (i : Nat)
    (hloc : ∀ a ∈ s, a.enterPayload = some i → a.aid = i) :
    (removeAssertion s i).2.count i = 0 := by
  unfold removeAssertion
  cases hf : s.filter (fun x => !(x.aid = i)) with
  | nil => simp
  | cons h t =>
    cases hp : h.enterPayload with
    | none => simp [hp]
    | some p =>
      by_cases hd : h.disposition = ClientStateDisposition.asserted
      · simp only [hp, if_pos hd]
        have hhf : h ∈ s.filter (fun x => !(x.aid = i)) := by
          rw [hf]
          exact List.mem_cons_self h t
        have hh : h ∈ s := List.mem_of_mem_filter hhf
        have hne : h.aid ≠ i := by
          have := List.of_mem_filter hhf
          simpa using this
        have hpne : p ≠ i := by
          intro hpe
          exact hne (hloc h hh (by rw [hp, hpe]))
        simp [List.count_cons, hpne]
      · simp [hp, if_neg hd]

/-! ## C2: state-enter broadcast discipline -/

/-- C2: when the enter-time cookie sync succeeds the continuation sets
the disposition to `Asserted` and enqueues the enter payload iff the
assertion is at the front of the FIFO, otherwise storing it in
`enterPayload` for a later `removeAssertion` to broadcast; when the
sync fails the assertion is removed and its payload is never
broadcast; along any event trace the payload of a given assertion is
broadcast at most once, and any broadcast of it happens only when the
assertion is head-of-FIFO and `Asserted`. -/
theorem state_enter_broadcast_spec (s : List ClientStateAssertion) (i : Nat) :
    (isFront s i = true → onEnterSyncOk s i = (setAsserted s i, [i])) ∧
    (isFront s i = false →
      onEnterSyncOk s i = (storePayload (setAsserted s i) i, [])) ∧
    (∀ a ∈ (onEnterSyncOk s i).1, a.aid = i →
      a.disposition = ClientStateDisposition.asserted) ∧
    (isFront s i = false →
      ∀ a ∈ (onEnterSyncOk s i).1, a.aid = i → a.enterPayload = some i) ∧
    (∀ a ∈ (onEnterSyncFail s i).1, a.aid ≠ i) ∧
    ((∀ a ∈ s, a.enterPayload = some i → a.aid = i) →
      (onEnterSyncFail s i).2.count i = 0) ∧
    (∀ evs : List StateEvent, aidCount i s ≤ 1 → storedCount i s = 0 →
      okCount i evs ≤ 1 → (stateRun s evs).2.count i ≤ 1) ∧
    (∀ e : StateEvent, (∀ a ∈ s, a.enterPayload = some i → a.aid = i) →
      i ∈ (stateStep s e).2 → headFrontAsserted (stateStep s e).1 i) := by
  refine ⟨?_, ?_, ?_, ?_, ?_, ?_, ?_, ?_⟩
  · intro hf
    unfold onEnterSyncOk
    rw [if_pos (by rw [isFront_setAsserted]; exact hf)]
  · intro hf
    unfold onEnterSyncOk
    rw [if_neg (by rw [isFront_setAsserted, hf]; simp)]
  · intro a ha haid
    unfold onEnterSyncOk at ha
    by_cases hf : isFront (setAsserted s i) i = true
    · rw [if_pos hf] at ha
      obtain ⟨b, hb, hab⟩ := List.mem_map.mp ha
      by_cases hbi : b.aid = i
      · rw [← hab]
        simp [hbi]
      · rw [← hab] at haid
        simp [hbi] at haid
    · rw [if_neg hf] at ha
      obtain ⟨c, hc, hac⟩ := List.mem_map.mp ha
      obtain ⟨b, hb, hcb⟩ := List.mem_map.mp hc
      by_cases hbi : b.aid = i
      · rw [← hac, ← hcb]
        simp [hbi]
      · rw [← hac, ← hcb] at haid
        simp [hbi] at haid
  · intro hf a ha haid
    unfold onEnterSyncOk at ha
    rw [if_neg (by rw [isFront_setAsserted, hf]; simp)] at ha
    obtain ⟨c, hc, hac⟩ := List.mem_map.mp ha
    by_cases hci : c.aid = i
    · rw [← hac]
      simp [hci]
    · rw [← hac] at haid
      simp [hci] at haid
  · intro a ha
    exact removeAssertion_aid_ne s i a ha
  · intro hloc
    exact removeAssertion_count_zero s i hloc
  · intro evs haid hstored hok
    have h := stateRun_count i evs s haid
    omega
  · intro e hloc hmem
    exact stateStep_broadcast_front s e i hloc hmem

/-- C2 witness: with two pending assertions queued in order, the
second one's sync completes while it is not at the front, so its
payload is deferred, and the subsequent removal of the first assertion
broadcasts it exactly once. -/
theorem state_enter_broadcast_spec_witness :
    (stateRun [⟨1, .pendingEnter, none⟩, ⟨2, .pendingEnter, none⟩]
        [.syncOk 2, .removed 1]).2.count 2 ≤ 1 ∧
    (stateRun [⟨1, .pendingEnter, none⟩, ⟨2, .pendingEnter, none⟩]
        [.syncOk 2, .removed 1]).2.count 2 = 1 := by
  constructor
  · exact (state_enter_broadcast_spec
      [⟨1, .pendingEnter, none⟩, ⟨2, .pendingEnter, none⟩] 2).2.2.2.2.2.2.1
      [.syncOk 2, .removed 1] (by decide) (by decide) (by decide)
  · decide

end Watchman
